import Mathlib

/-!
Verification of the 440 Hz tone generator's sample-delivery pipeline
(`test_440.cpp`) and of the MCP4725 DAC driver (`MCP4725.cpp`), as a
shallow embedding in Lean 4.  Machine integers are modelled as `Nat`
with explicit masking/modulo where the C code masks or wraps; float
samples are modelled as exact rationals (`ℚ`); the fallible I2C calls
are modelled by passing the byte count the bus call would return.
-/

namespace Test440

/-- `RING_BUFFER_SIZE` (test_440.cpp line 55). -/
def RING_BUFFER_SIZE : ℕ := 512

/-- `RING_BUFFER_MASK = RING_BUFFER_SIZE - 1` (test_440.cpp line 56). -/
def RING_BUFFER_MASK : ℕ := 511

/-- `BUFFER_SIZE`, the Heavy processing block size (test_440.cpp line 49). -/
def BUFFER_SIZE : ℕ := 64

/-- `BUFFER_LOW_WATERMARK = RING_BUFFER_SIZE / 2` (test_440.cpp line 57). -/
def BUFFER_LOW_WATERMARK : ℕ := 256

/-- `TIMER_PERIOD_US` (test_440.cpp line 52). -/
def TIMER_PERIOD_US : ℕ := 22

/-- Modulus of 32-bit unsigned arithmetic (`uint32_t`). -/
def U32 : ℕ := 4294967296

/-- `audioToDAC` (test_440.cpp lines 88-98): clamp the sample to
[-1, 1], then `(uint16_t)((sample + 1.0f) * 2047.5f)`.  The cast
truncates the (nonnegative) product toward zero, i.e. takes its floor.
Float samples are embedded as exact rationals; at every input used by
the boundary-value claims the float operations are exact. -/
def audioToDAC (sample : ℚ) : ℕ :=
  let s1 : ℚ := if 1 < sample then 1 else sample
  let s2 : ℚ := if s1 < -1 then -1 else s1
  (⌊(s2 + 1) * (2047.5 : ℚ)⌋).toNat

/-- The mutable state shared by the producer loop and the timer
interrupt handler (test_440.cpp lines 60-81): the ring buffer array,
the two indices (always kept below 512 by masking) and the statistics
counters. -/
structure RingState where
  buf : ℕ → ℕ
  writeIndex : ℕ
  readIndex : ℕ
  samplesGenerated : ℕ
  dacUpdates : ℕ
  bufferUnderruns : ℕ
  bufferOverruns : ℕ

/-- The state at program start: zero-initialised statics. -/
def initState : RingState :=
  { buf := fun _ => 0, writeIndex := 0, readIndex := 0,
    samplesGenerated := 0, dacUpdates := 0,
    bufferUnderruns := 0, bufferOverruns := 0 }

/-- `ringBufferAvailable` (test_440.cpp lines 103-106):
`(writeIndex - readIndex) & RING_BUFFER_MASK` where the subtraction is
32-bit unsigned (wraps modulo 2^32). -/
def ringBufferAvailable (w r : ℕ) : ℕ :=
  ((w + U32 - r) % U32) &&& RING_BUFFER_MASK

/-- `ringBufferFree` (test_440.cpp lines 111-114):
`RING_BUFFER_SIZE - ringBufferAvailable() - 1`. -/
def ringBufferFree (w r : ℕ) : ℕ :=
  RING_BUFFER_SIZE - ringBufferAvailable w r - 1

/-- The three 16-bit words the timer handler writes into
`dma_i2c_buffer` for one DAC value (test_440.cpp lines 158-160). -/
def dmaWords (dacValue : ℕ) : List ℕ :=
  [0x40, (dacValue >>> 4) &&& 0xFF, ((dacValue <<< 4) &&& 0xF0) ||| 0x200]

/-- `timerCallback` (test_440.cpp lines 146-178), as a function of the
DMA-busy flag it samples and the shared state.  Returns the new state
together with the DAC code queued for transfer this period (`none`
when no transfer is issued).  The GPIO writes, the interrupt
acknowledge and the alarm re-arm do not touch this state; the re-arm
is modelled separately by `rearm`/`scheduleRun`. -/
def timerCallback (dmaBusy : Bool) (s : RingState) : RingState × Option ℕ :=
  if s.readIndex ≠ s.writeIndex ∧ dmaBusy = false then
    ({ s with readIndex := (s.readIndex + 1) &&& RING_BUFFER_MASK,
              dacUpdates := s.dacUpdates + 1 },
     some (s.buf s.readIndex))
  else if s.readIndex ≠ s.writeIndex then
    ({ s with bufferUnderruns := s.bufferUnderruns + 1 }, none)
  else
    ({ s with bufferUnderruns := s.bufferUnderruns + 1 }, none)

/-- One iteration of the producer's guarded store (test_440.cpp lines
352-362): compute the next write index, abort with an overrun if it
would equal the read index, otherwise store the code and advance.
The returned flag is the loop `break`. -/
def pushSample (x : ℕ) (s : RingState) : RingState × Bool :=
  let nextWrite := (s.writeIndex + 1) &&& RING_BUFFER_MASK
  if nextWrite = s.readIndex then
    ({ s with bufferOverruns := s.bufferOverruns + 1 }, true)
  else
    ({ s with buf := Function.update s.buf s.writeIndex x,
              writeIndex := nextWrite }, false)

/-- The producer's inner `for` loop over one converted block
(test_440.cpp lines 350-363): push codes in order until done or until
the defensive overrun check breaks out. -/
def pushBlock (xs : List ℕ) (s : RingState) : RingState :=
  match xs with
  | [] => s
  | x :: rest =>
    let p := pushSample x s
    if p.2 then p.1 else pushBlock rest p.1

/-- One store of the pre-fill loop (test_440.cpp lines 258-262), which
writes unconditionally and advances the masked write index. -/
def prefillPush (x : ℕ) (s : RingState) : RingState :=
  { s with buf := Function.update s.buf s.writeIndex x,
           writeIndex := (s.writeIndex + 1) &&& RING_BUFFER_MASK }

/-- One pre-fill block (test_440.cpp lines 255-263): 64 unconditional
stores. -/
def prefillBlock (xs : List ℕ) (s : RingState) : RingState :=
  xs.foldl (fun st x => prefillPush x st) s

/-- One iteration of the producer's main loop (test_440.cpp lines
337-369): if `available` is below the low watermark, generate a block
(counted in `samplesGenerated`) and push it; otherwise sleep. -/
def mainIter (block : List ℕ) (s : RingState) : RingState :=
  if ringBufferAvailable s.writeIndex s.readIndex < BUFFER_LOW_WATERMARK then
    pushBlock block { s with samplesGenerated := s.samplesGenerated + BUFFER_SIZE }
  else
    s

/-- The alarm re-arm (test_440.cpp line 175):
`alarm[0] = timerawl + TIMER_PERIOD_US` in 32-bit arithmetic. -/
def rearm (timerawl : ℕ) : ℕ := (timerawl + TIMER_PERIOD_US) % U32

/-- A run of timer firings.  The i-th firing becomes due at the
current alarm value; `lat` microseconds later (interrupt-entry latency
plus handler execution up to line 175) the handler reads `timerawl`
and re-arms from it.  Returns the alarm value after the run, i.e. the
cumulative scheduled firing time. -/
def scheduleRun (alarm : ℕ) : List ℕ → ℕ
  | [] => alarm
  | lat :: rest => scheduleRun (rearm (alarm + lat)) rest

/-- The codes currently stored in the ring buffer, oldest first:
slot `readIndex`, then `readIndex + 1`, ... (masked), one slot per
available sample. -/
def contents (s : RingState) : List ℕ :=
  (List.range (ringBufferAvailable s.writeIndex s.readIndex)).map
    (fun i => s.buf ((s.readIndex + i) % RING_BUFFER_SIZE))

/-- `n` consecutive timer firings with the DMA channel idle; collects
the codes queued for the bus, in order. -/
def popN : ℕ → RingState → RingState × List ℕ
  | 0, s => (s, [])
  | n + 1, s =>
    let p := timerCallback false s
    let q := popN n p.1
    (q.1, p.2.toList ++ q.2)

/-- A single ring-buffer operation: one producer store attempt or one
timer firing. -/
inductive RingOp where
  | push (x : ℕ)
  | pop (dmaBusy : Bool)

/-- Run a sequence of pushes and pops from a state. -/
def runOps : List RingOp → RingState → RingState
  | [], s => s
  | RingOp.push x :: rest, s => runOps rest (pushSample x s).1
  | RingOp.pop b :: rest, s => runOps rest (timerCallback b s).1

/-- A burst of consumer firings (one per flag, the flag being the
DMA-busy state each sees). -/
def runPops (flags : List Bool) (s : RingState) : RingState :=
  flags.foldl (fun st b => (timerCallback b st).1) s

/-- One producer iteration under the watermark discipline of the
refill policy: push a block only when `free() >= blockSize`. -/
def producerIter (blockSize : ℕ) (block : List ℕ) (s : RingState) : RingState :=
  if blockSize ≤ ringBufferFree s.writeIndex s.readIndex then pushBlock block s else s

/-- A run of producer iterations, each preceded by a burst of consumer
firings. -/
def runRounds (blockSize : ℕ) (rounds : List (List Bool × List ℕ))
    (s : RingState) : RingState :=
  rounds.foldl (fun st rd => producerIter blockSize rd.2 (runPops rd.1 st)) s

/-- A concrete 64-sample block of DAC codes for the end-to-end
scenario (the code values play no role in the index arithmetic). -/
def scenarioBlock : List ℕ := List.replicate BUFFER_SIZE 2048

/-- The state after the four pre-fill blocks of 64 codes
(test_440.cpp lines 255-263) starting from the initial state. -/
def scenarioPrefilled : RingState :=
  prefillBlock scenarioBlock (prefillBlock scenarioBlock
    (prefillBlock scenarioBlock (prefillBlock scenarioBlock initState)))

/-- The pre-filled state after one consumer pop. -/
def scenarioAfterPop : RingState := (timerCallback false scenarioPrefilled).1

end Test440

namespace MCP4725

/-- `DAC_VREF_MV` (MCP4725.h line 128). -/
def DAC_VREF_MV : ℕ := 5000

/-- `DAC_RESOLUTION` (MCP4725.h line 129). -/
def DAC_RESOLUTION : ℕ := 4096

/-- `CMD_WRITE_DAC` (MCP4725.h line 132). -/
def CMD_WRITE_DAC : ℕ := 0x40

/-- `CMD_WRITE_DAC_EEPROM` (MCP4725.h line 133). -/
def CMD_WRITE_DAC_EEPROM : ℕ := 0x60

/-- The driver's cached state (MCP4725.h lines 136-138): the
`initialized_` flag, the cached 12-bit value and the cached power-down
mode (enum value 0..3). -/
structure State where
  initialized : Bool
  currentValue : ℕ
  currentPowerMode : ℕ
deriving DecidableEq

/-- `MCP4725::writeDAC` (MCP4725.cpp lines 221-253).  The result of
`i2c_write_blocking` is an environment input, passed as `i2cResult`.
Returns the new cached state, the success flag, and the three bytes
handed to the bus. -/
def writeDAC (i2cResult : ℤ) (value powerDown : ℕ) (writeEEPROM : Bool)
    (s : State) : State × Bool × List ℕ :=
  let v := value &&& 0x0FFF
  let d0 := if writeEEPROM then CMD_WRITE_DAC_EEPROM ||| (powerDown <<< 1)
            else CMD_WRITE_DAC ||| (powerDown <<< 1)
  let d1 := (v >>> 4) &&& 0xFF
  let d2 := (v <<< 4) &&& 0xF0
  if i2cResult = 3 then
    ({ s with currentValue := v, currentPowerMode := powerDown }, true, [d0, d1, d2])
  else
    (s, false, [d0, d1, d2])

/-- `MCP4725::setRaw` (MCP4725.cpp lines 77-91).  The third result is
the bytes transmitted, `none` when no bus write is attempted. -/
def setRaw (i2cResult : ℤ) (value : ℕ) (writeEEPROM : Bool)
    (s : State) : State × Bool × Option (List ℕ) :=
  if s.initialized = false then (s, false, none)
  else
    let v := if 4095 < value then 4095 else value
    let r := writeDAC i2cResult v s.currentPowerMode writeEEPROM s
    (r.1, r.2.1, some r.2.2)

/-- `MCP4725::setMillivolts` (MCP4725.cpp lines 93-110). -/
def setMillivolts (i2cResult : ℤ) (millivolts : ℕ) (writeEEPROM : Bool)
    (s : State) : State × Bool × Option (List ℕ) :=
  if s.initialized = false then (s, false, none)
  else
    let mv := if DAC_VREF_MV < millivolts then DAC_VREF_MV else millivolts
    let value := mv * DAC_RESOLUTION / DAC_VREF_MV
    setRaw i2cResult value writeEEPROM s

/-- `MCP4725::setVolts` (MCP4725.cpp lines 112-123).  The C cast
`(uint16_t)(volts * 1000.0f)` is modelled as floor followed by
reduction modulo 2^16 (exact for the defined, in-range nonnegative
case). -/
def setVolts (i2cResult : ℤ) (volts : ℚ) (writeEEPROM : Bool)
    (s : State) : State × Bool × Option (List ℕ) :=
  if s.initialized = false then (s, false, none)
  else setMillivolts i2cResult ((⌊volts * 1000⌋).toNat % 65536) writeEEPROM s

/-- `MCP4725::setCVMillivolts` (MCP4725.cpp lines 125-149).  After
clamping, `millivolts + 5000` is in `[0, 10000]`, so the C integer
division `/ 2` (truncation toward zero) agrees with natural division. -/
def setCVMillivolts (i2cResult : ℤ) (millivolts : ℤ) (writeEEPROM : Bool)
    (s : State) : State × Bool × Option (List ℕ) :=
  if s.initialized = false then (s, false, none)
  else
    let mv := if millivolts < -5000 then (-5000 : ℤ)
              else if 5000 < millivolts then 5000 else millivolts
    let dacMillivolts := (mv + 5000).toNat / 2
    setMillivolts i2cResult dacMillivolts writeEEPROM s

/-- `MCP4725::setPowerDownMode` (MCP4725.cpp lines 151-162): the
cached mode is assigned first, then the current value is rewritten
with the new mode. -/
def setPowerDownMode (i2cResult : ℤ) (mode : ℕ)
    (s : State) : State × Bool × Option (List ℕ) :=
  if s.initialized = false then (s, false, none)
  else
    let s1 := { s with currentPowerMode := mode }
    let r := writeDAC i2cResult s1.currentValue mode false s1
    (r.1, r.2.1, some r.2.2)

/-- The 12-bit value a transmitted 3-byte fast-write frame encodes,
as the device reassembles it: `(data1 << 4) | (data2 >> 4)`. -/
def transmittedCode : List ℕ → ℕ
  | [_, d1, d2] => (d1 <<< 4) ||| (d2 >>> 4)
  | _ => 0

end MCP4725

namespace Test440

/-- Bit-masking with 511 is reduction modulo 512. -/
theorem and511 (x : ℕ) : x &&& 511 = x % 512 := by
  have h := Nat.and_pow_two_sub_one_eq_mod x 9
  norm_num at h
  exact h

/-- `ringBufferAvailable` in closed modular form for in-range indices. -/
theorem avail_eq (w r : ℕ) (hw : w < 512) (hr : r < 512) :
    ringBufferAvailable w r = (512 + w - r) % 512 := by
  simp only [ringBufferAvailable, RING_BUFFER_MASK, U32, and511]
  omega

/-- Available plus free is always one less than the ring size. -/
theorem avail_add_free (w r : ℕ) :
    ringBufferAvailable w r + ringBufferFree w r = RING_BUFFER_SIZE - 1 := by
  simp only [ringBufferFree, ringBufferAvailable, RING_BUFFER_SIZE,
    RING_BUFFER_MASK, U32, and511]
  omega

theorem avail_lt (w r : ℕ) : ringBufferAvailable w r < 512 := by
  simp only [ringBufferAvailable, RING_BUFFER_MASK, U32, and511]
  omega

/-- Advancing the write index (when a slot is free) grows the
available count by one. -/
theorem avail_push (w r : ℕ) (hw : w < 512) (hr : r < 512)
    (hfree : ringBufferFree w r ≠ 0) :
    ringBufferAvailable ((w + 1) &&& RING_BUFFER_MASK) r
      = ringBufferAvailable w r + 1 := by
  simp only [ringBufferFree, ringBufferAvailable, RING_BUFFER_SIZE,
    RING_BUFFER_MASK, U32, and511] at *
  omega

/-- Advancing the read index (when nonempty) shrinks the available
count by one. -/
theorem avail_pop (w r : ℕ) (hw : w < 512) (hr : r < 512) (hne : r ≠ w) :
    ringBufferAvailable w ((r + 1) &&& RING_BUFFER_MASK)
      = ringBufferAvailable w r - 1 := by
  simp only [ringBufferAvailable, RING_BUFFER_MASK, U32, and511]
  omega

theorem avail_zero_iff (w r : ℕ) (hw : w < 512) (hr : r < 512) :
    ringBufferAvailable w r = 0 ↔ r = w := by
  simp only [ringBufferAvailable, RING_BUFFER_MASK, U32, and511]
  omega

/-- A slot strictly inside the available region is not the write slot. -/
theorem idx_ne (w r i : ℕ) (hw : w < 512) (hr : r < 512)
    (hi : i < ringBufferAvailable w r) :
    (r + i) % RING_BUFFER_SIZE ≠ w := by
  simp only [ringBufferAvailable, RING_BUFFER_SIZE, RING_BUFFER_MASK,
    U32, and511] at *
  omega

/-- The slot just past the available region is the write slot. -/
theorem idx_last (w r : ℕ) (hw : w < 512) (hr : r < 512) :
    (r + ringBufferAvailable w r) % RING_BUFFER_SIZE = w := by
  simp only [ringBufferAvailable, RING_BUFFER_SIZE, RING_BUFFER_MASK,
    U32, and511]
  omega

theorem contents_length (s : RingState) :
    (contents s).length = ringBufferAvailable s.writeIndex s.readIndex := by
  simp [contents]

/-- Storing at the write index and advancing it appends the code to
the buffer contents. -/
theorem contents_push (s : RingState) (x : ℕ)
    (hw : s.writeIndex < 512) (hr : s.readIndex < 512)
    (hfree : ringBufferFree s.writeIndex s.readIndex ≠ 0) :
    contents { s with buf := Function.update s.buf s.writeIndex x,
                      writeIndex := (s.writeIndex + 1) &&& RING_BUFFER_MASK } =
      contents s ++ [x] := by
  unfold contents
  simp only
  rw [avail_push _ _ hw hr hfree, List.range_succ, List.map_append]
  congr 1
  · apply List.map_congr_left
    intro i hi
    exact Function.update_noteq
      (idx_ne _ _ _ hw hr (List.mem_range.mp hi)) x s.buf
  · simp only [List.map_cons, List.map_nil]
    rw [idx_last _ _ hw hr, Function.update_same]

end Test440

namespace Test440

/-- A successful consumer firing: the branch taken and the state
produced when the buffer is nonempty and the DMA channel idle. -/
theorem timerCallback_pop (s : RingState) (hne : s.readIndex ≠ s.writeIndex) :
    timerCallback false s =
      ({ s with readIndex := (s.readIndex + 1) &&& RING_BUFFER_MASK,
                dacUpdates := s.dacUpdates + 1 }, some (s.buf s.readIndex)) := by
  unfold timerCallback
  rw [if_pos ⟨hne, rfl⟩]

/-- Advancing the read index of a nonempty buffer uncovers the head of
the contents. -/
theorem contents_advance_read (s : RingState)
    (hw : s.writeIndex < 512) (hr : s.readIndex < 512)
    (hne : s.readIndex ≠ s.writeIndex) :
    contents s = s.buf s.readIndex ::
      contents { s with readIndex := (s.readIndex + 1) &&& RING_BUFFER_MASK,
                        dacUpdates := s.dacUpdates + 1 } := by
  have haz : ringBufferAvailable s.writeIndex s.readIndex ≠ 0 := by
    intro h
    exact hne ((avail_zero_iff _ _ hw hr).mp h)
  obtain ⟨m, hm⟩ : ∃ m, ringBufferAvailable s.writeIndex s.readIndex = m + 1 :=
    ⟨ringBufferAvailable s.writeIndex s.readIndex - 1, by omega⟩
  unfold contents
  simp only
  rw [avail_pop _ _ hw hr hne, hm]
  simp only [Nat.add_sub_cancel]
  rw [List.range_succ_eq_map]
  simp only [List.map_cons, List.map_map, Nat.add_zero]
  congr 1
  · congr 1
    simp only [RING_BUFFER_SIZE]
    omega
  · apply List.map_congr_left
    intro i hi
    simp only [Function.comp_apply]
    congr 1
    simp only [RING_BUFFER_SIZE, RING_BUFFER_MASK, and511]
    omega

end Test440

namespace Test440

/-- With a free slot, the defensive overrun check does not fire and the
push stores and advances. -/
theorem pushSample_ok (x : ℕ) (s : RingState)
    (hw : s.writeIndex < 512) (hr : s.readIndex < 512)
    (hfree : ringBufferFree s.writeIndex s.readIndex ≠ 0) :
    pushSample x s =
      ({ s with buf := Function.update s.buf s.writeIndex x,
                writeIndex := (s.writeIndex + 1) &&& RING_BUFFER_MASK }, false) := by
  unfold pushSample
  rw [if_neg]
  intro hcol
  simp only [ringBufferFree, ringBufferAvailable, RING_BUFFER_SIZE,
    RING_BUFFER_MASK, U32, and511] at hfree hcol
  omega

/-- A push into a buffer with a free slot decrements the free count. -/
theorem free_push (w r : ℕ) (hw : w < 512) (hr : r < 512)
    (hfree : ringBufferFree w r ≠ 0) :
    ringBufferFree ((w + 1) &&& RING_BUFFER_MASK) r = ringBufferFree w r - 1 := by
  simp only [ringBufferFree, ringBufferAvailable, RING_BUFFER_SIZE,
    RING_BUFFER_MASK, U32, and511] at *
  omega

/-- Pushing a block that fits in the free space: no overrun, read index
and counters untouched, the block appended to the contents, and the
write index still in range. -/
theorem pushBlock_spec (xs : List ℕ) : ∀ (s : RingState),
    s.writeIndex < 512 → s.readIndex < 512 →
    xs.length ≤ ringBufferFree s.writeIndex s.readIndex →
    (pushBlock xs s).writeIndex < 512 ∧
    (pushBlock xs s).readIndex = s.readIndex ∧
    (pushBlock xs s).bufferOverruns = s.bufferOverruns ∧
    (pushBlock xs s).bufferUnderruns = s.bufferUnderruns ∧
    (pushBlock xs s).dacUpdates = s.dacUpdates ∧
    (pushBlock xs s).samplesGenerated = s.samplesGenerated ∧
    contents (pushBlock xs s) = contents s ++ xs := by
  induction xs with
  | nil =>
    intro s hw hr _
    exact ⟨hw, rfl, rfl, rfl, rfl, rfl, by simp [pushBlock]⟩
  | cons x rest ih =>
    intro s hw hr hlen
    have hfree : ringBufferFree s.writeIndex s.readIndex ≠ 0 := by
      simp only [List.length_cons] at hlen
      omega
    have hw1 : (s.writeIndex + 1) &&& RING_BUFFER_MASK < 512 := by
      simp only [RING_BUFFER_MASK, and511]
      omega
    have hfree1 : rest.length ≤
        ringBufferFree ((s.writeIndex + 1) &&& RING_BUFFER_MASK) s.readIndex := by
      rw [free_push _ _ hw hr hfree]
      simp only [List.length_cons] at hlen
      omega
    rw [pushBlock, pushSample_ok x s hw hr hfree]
    dsimp only
    rw [if_neg Bool.false_ne_true]
    obtain ⟨a1, a2, a3, a4, a5, a6, a7⟩ :=
      ih { s with buf := Function.update s.buf s.writeIndex x,
                  writeIndex := (s.writeIndex + 1) &&& RING_BUFFER_MASK }
        hw1 hr hfree1
    refine ⟨a1, a2, a3, a4, a5, a6, ?_⟩
    rw [a7, contents_push s x hw hr hfree]
    simp

end Test440

namespace Test440

/-- The timer handler never touches the write index or the overrun
counter, and keeps the read index in range. -/
theorem timerCallback_frame (b : Bool) (s : RingState) (hr : s.readIndex < 512) :
    (timerCallback b s).1.writeIndex = s.writeIndex ∧
    (timerCallback b s).1.readIndex < 512 ∧
    (timerCallback b s).1.bufferOverruns = s.bufferOverruns ∧
    (timerCallback b s).1.samplesGenerated = s.samplesGenerated := by
  have hm : (s.readIndex + 1) &&& RING_BUFFER_MASK < 512 := by
    simp only [RING_BUFFER_MASK, and511]
    omega
  unfold timerCallback
  split_ifs <;> simp_all

/-- Popping `n` codes from a buffer holding at least `n` yields the
first `n` codes of the contents, leaves the rest, and does not touch
the write index. -/
theorem popN_spec (n : ℕ) : ∀ (s : RingState),
    s.writeIndex < 512 → s.readIndex < 512 →
    n ≤ (contents s).length →
    (popN n s).2 = (contents s).take n ∧
    (popN n s).1.writeIndex = s.writeIndex ∧
    (popN n s).1.readIndex < 512 ∧
    contents (popN n s).1 = (contents s).drop n := by
  induction n with
  | zero =>
    intro s hw hr _
    exact ⟨by simp [popN], rfl, hr, by simp [popN]⟩
  | succ n ih =>
    intro s hw hr hlen
    have hav : ringBufferAvailable s.writeIndex s.readIndex ≠ 0 := by
      rw [contents_length] at hlen
      omega
    have hne : s.readIndex ≠ s.writeIndex := fun h =>
      hav ((avail_zero_iff _ _ hw hr).mpr h)
    have hcd := contents_advance_read s hw hr hne
    have hr2 : (s.readIndex + 1) &&& RING_BUFFER_MASK < 512 := by
      simp only [RING_BUFFER_MASK, and511]
      omega
    have hlen2 : n ≤ (contents { s with
        readIndex := (s.readIndex + 1) &&& RING_BUFFER_MASK,
        dacUpdates := s.dacUpdates + 1 }).length := by
      have hl := congrArg List.length hcd
      simp only [List.length_cons] at hl
      omega
    rw [popN, timerCallback_pop s hne]
    dsimp only
    obtain ⟨b1, b2, b3, b4⟩ :=
      ih { s with readIndex := (s.readIndex + 1) &&& RING_BUFFER_MASK,
                  dacUpdates := s.dacUpdates + 1 } hw hr2 hlen2
    refine ⟨?_, b2, b3, ?_⟩
    · rw [b1, hcd]
      simp [List.take_succ_cons]
    · rw [b4, hcd]
      simp [List.drop_succ_cons]

end Test440

namespace Test440

/-- C1 counterexample: the conversion truncates rather than rounds, so
`convert(0.0)` is 2047, not the 2048 the round-half convention gives. -/
theorem audioToDAC_zero_ne_2048 : audioToDAC 0 = 2047 ∧ audioToDAC 0 ≠ 2048 := by
  refine ⟨?_, ?_⟩ <;> (norm_num [audioToDAC] <;> decide)

/-- C1 amended: `audioToDAC` clamps the sample to [-1, 1] and returns
the floor (truncation) of `(clamped + 1) * 2047.5`; the boundary
values are `convert(-1) = 0`, `convert(0) = 2047`, `convert(1) = 4095`,
`convert(1.5) = convert(1)`, `convert(-1.5) = convert(-1)`, and the
result never exceeds 4095. -/
theorem audioToDAC_clamps_and_floors :
    (∀ q : ℚ, 1 ≤ q → audioToDAC q = audioToDAC 1) ∧
    (∀ q : ℚ, q ≤ -1 → audioToDAC q = audioToDAC (-1)) ∧
    (∀ q : ℚ, -1 ≤ q → q ≤ 1 → audioToDAC q = (⌊(q + 1) * (2047.5 : ℚ)⌋).toNat) ∧
    (∀ q : ℚ, audioToDAC q ≤ 4095) ∧
    audioToDAC (-1) = 0 ∧ audioToDAC 0 = 2047 ∧ audioToDAC 1 = 4095 ∧
    audioToDAC (3/2) = audioToDAC 1 ∧ audioToDAC (-3/2) = audioToDAC (-1) := by
  have hclampHi : ∀ q : ℚ, 1 ≤ q → audioToDAC q = audioToDAC 1 := by
    intro q hq
    rcases eq_or_lt_of_le hq with h | h
    · rw [← h]
    · simp only [audioToDAC, if_pos h]
      norm_num
  have hclampLo : ∀ q : ℚ, q ≤ -1 → audioToDAC q = audioToDAC (-1) := by
    intro q hq
    rcases eq_or_lt_of_le hq with h | h
    · rw [h]
    · have h1 : ¬ (1 < q) := by linarith
      simp only [audioToDAC, if_neg h1, if_pos h]
      norm_num
  refine ⟨hclampHi, hclampLo, ?_, ?_, ?_, ?_, ?_, ?_, ?_⟩
  · intro q h1 h2
    have ha : ¬ (1 < q) := not_lt.mpr h2
    have hb : ¬ (q < -1) := not_lt.mpr h1
    simp only [audioToDAC, if_neg ha, if_neg hb]
  · intro q
    simp only [audioToDAC]
    set s1 : ℚ := if 1 < q then 1 else q with hs1
    set s2 : ℚ := if s1 < -1 then -1 else s1 with hs2
    have hA : s1 ≤ 1 := by
      rw [hs1]
      split_ifs with h
      · exact le_refl 1
      · exact not_lt.mp h
    have hle : s2 ≤ 1 := by
      rw [hs2]
      split_ifs with h
      · norm_num
      · exact hA
    have hmul : (s2 + 1) * (2047.5 : ℚ) ≤ 4095 := by nlinarith
    have hfl : ⌊(s2 + 1) * (2047.5 : ℚ)⌋ ≤ 4095 := by
      calc ⌊(s2 + 1) * (2047.5 : ℚ)⌋ ≤ ⌊(4095 : ℚ)⌋ := Int.floor_le_floor hmul
      _ = 4095 := by norm_num
    omega
  · norm_num [audioToDAC] <;> decide
  · norm_num [audioToDAC] <;> decide
  · norm_num [audioToDAC] <;> decide
  · norm_num [audioToDAC] <;> decide
  · norm_num [audioToDAC] <;> decide

/-- C1 witness: clamping and the floor formula at concrete samples. -/
theorem audioToDAC_clamps_and_floors_w :
    audioToDAC 2 = audioToDAC 1 ∧ audioToDAC (-2) = audioToDAC (-1) ∧
    audioToDAC 0 = (⌊((0 : ℚ) + 1) * (2047.5 : ℚ)⌋).toNat :=
  ⟨audioToDAC_clamps_and_floors.1 2 (by decide),
   audioToDAC_clamps_and_floors.2.1 (-2) (by decide),
   audioToDAC_clamps_and_floors.2.2.1 0 (by decide) (by decide)⟩

/-- C2 counterexample: the handler re-arms from the raw timer value it
reads at re-arm time, so one period with a 1 microsecond latency (no
overrun: 1 < 22) schedules the next firing at 23, not 1 x PERIOD = 22. -/
theorem scheduleRun_drifts :
    scheduleRun 0 [1] = TIMER_PERIOD_US + 1 ∧
    scheduleRun 0 [1] ≠ 1 * TIMER_PERIOD_US ∧ 1 < TIMER_PERIOD_US := by
  refine ⟨?_, ?_, ?_⟩ <;> decide

/-- C2 amended: the re-arm is anchored to the raw timer value at
re-arm time ("now + period"), so over M periods the cumulative
scheduled firing time is M x PERIOD plus the sum of the per-firing
latencies (modulo 2^32); it equals M x PERIOD only when every latency
is zero, so it is not independent of interrupt-entry latency. -/
theorem scheduleRun_eq (alarm0 : ℕ) (lats : List ℕ) (h : alarm0 < U32) :
    scheduleRun alarm0 lats =
      (alarm0 + TIMER_PERIOD_US * lats.length + lats.sum) % U32 := by
  induction lats generalizing alarm0 with
  | nil => simp [scheduleRun, Nat.mod_eq_of_lt h]
  | cons lat rest ih =>
    have hr : rearm (alarm0 + lat) < U32 := by
      unfold rearm U32
      omega
    rw [scheduleRun, ih _ hr]
    unfold rearm TIMER_PERIOD_US U32
    simp only [List.length_cons, List.sum_cons]
    omega

/-- C2 amended witness: two periods with latencies 5 and 3. -/
theorem scheduleRun_eq_w :
    scheduleRun 0 [5, 3] = (0 + TIMER_PERIOD_US * 2 + 8) % U32 :=
  scheduleRun_eq 0 [5, 3] (by decide)

/-- C3 counterexample: the handler invoked with a nonempty buffer
(read index 0, write index 1) but a busy DMA channel still increments
the underrun counter, so an increment does not imply the buffer was
empty at entry. -/
theorem underrun_with_nonempty_buffer :
    ((timerCallback true { initState with writeIndex := 1 }).1.bufferUnderruns
      = ({ initState with writeIndex := 1 } : RingState).bufferUnderruns + 1) ∧
    ({ initState with writeIndex := 1 } : RingState).readIndex ≠
      ({ initState with writeIndex := 1 } : RingState).writeIndex := by
  decide

/-- C3 amended: the underrun counter increments exactly when no bus
transfer is issued for the period — when the buffer is empty or the
DMA channel is still busy — and a transfer is queued otherwise. -/
theorem underruns_iff_no_transfer (dmaBusy : Bool) (s : RingState) :
    ((timerCallback dmaBusy s).1.bufferUnderruns =
      if s.readIndex = s.writeIndex ∨ dmaBusy = true
      then s.bufferUnderruns + 1 else s.bufferUnderruns) ∧
    ((timerCallback dmaBusy s).2 = none ↔
      (s.readIndex = s.writeIndex ∨ dmaBusy = true)) := by
  cases dmaBusy <;> by_cases h : s.readIndex = s.writeIndex <;>
    simp [timerCallback, h]

/-- C4: for every sequence of pushes and pops from the initial state,
`available() + free() = capacity - 1` holds, with capacity 512. -/
theorem capacity_invariant (ops : List RingOp) :
    ringBufferAvailable (runOps ops initState).writeIndex
        (runOps ops initState).readIndex
      + ringBufferFree (runOps ops initState).writeIndex
          (runOps ops initState).readIndex
      = RING_BUFFER_SIZE - 1 :=
  avail_add_free _ _

/-- A burst of consumer firings never touches the write index or the
overrun counter, and keeps the read index in range. -/
theorem runPops_frame (flags : List Bool) : ∀ (s : RingState),
    s.readIndex < 512 →
    (runPops flags s).writeIndex = s.writeIndex ∧
    (runPops flags s).readIndex < 512 ∧
    (runPops flags s).bufferOverruns = s.bufferOverruns := by
  induction flags with
  | nil => intro s hr; exact ⟨rfl, hr, rfl⟩
  | cons b rest ih =>
    intro s hr
    obtain ⟨f1, f2, f3, _⟩ := timerCallback_frame b s hr
    obtain ⟨g1, g2, g3⟩ := ih (timerCallback b s).1 f2
    exact ⟨by rw [runPops] at *; rw [List.foldl_cons, g1, f1], g2,
      by rw [runPops] at *; rw [List.foldl_cons, g3, f3]⟩

/-- A producer iteration under the free-space guard causes no overrun
and keeps the indices in range. -/
theorem producerIter_no_overrun (blockSize : ℕ) (block : List ℕ) (s : RingState)
    (hw : s.writeIndex < 512) (hr : s.readIndex < 512)
    (hlen : block.length = blockSize) :
    (producerIter blockSize block s).writeIndex < 512 ∧
    (producerIter blockSize block s).readIndex < 512 ∧
    (producerIter blockSize block s).bufferOverruns = s.bufferOverruns := by
  unfold producerIter
  split_ifs with hg
  · obtain ⟨p1, p2, p3, _⟩ := pushBlock_spec block s hw hr (by omega)
    exact ⟨p1, by rw [p2]; exact hr, p3⟩
  · exact ⟨hw, hr, rfl⟩

/-- C5: if the producer only pushes a block when `free() >= blockSize`,
`blockSize <= capacity / 2`, and the consumer fires at most once per
producer iteration, the overrun counter stays 0 over any run: the
defensive next-write = read check never triggers. -/
theorem no_overrun_under_discipline (blockSize : ℕ)
    (rounds : List (List Bool × List ℕ)) :
    blockSize ≤ RING_BUFFER_SIZE / 2 →
    (∀ rd ∈ rounds, (rd : List Bool × List ℕ).2.length = blockSize ∧
      (rd : List Bool × List ℕ).1.length ≤ 1) →
    ∀ (s : RingState), s.writeIndex < 512 → s.readIndex < 512 →
    s.bufferOverruns = 0 →
    (runRounds blockSize rounds s).bufferOverruns = 0 := by
  intro hbs hdisc
  induction rounds with
  | nil => intro s hw hr h0; simpa [runRounds] using h0
  | cons rd rest ih =>
    intro s hw hr h0
    obtain ⟨hlen, _⟩ := hdisc rd (List.mem_cons_self rd rest)
    obtain ⟨f1, f2, f3⟩ := runPops_frame rd.1 s hr
    obtain ⟨g1, g2, g3⟩ := producerIter_no_overrun blockSize rd.2
      (runPops rd.1 s) (by rw [f1]; exact hw) f2 hlen
    have hdisc2 : ∀ r ∈ rest, (r : List Bool × List ℕ).2.length = blockSize ∧
        (r : List Bool × List ℕ).1.length ≤ 1 :=
      fun r hrm => hdisc r (List.mem_cons_of_mem rd hrm)
    have := ih hdisc2 (producerIter blockSize rd.2 (runPops rd.1 s)) g1 g2
      (by rw [g3, f3]; exact h0)
    rw [runRounds] at this ⊢
    rw [List.foldl_cons]
    exact this

/-- C6: codes leave the ring buffer in strict FIFO order: pushing any
block of N codes into an empty buffer (no overrun possible for
N <= 511) and popping N times yields exactly those codes in push
order. -/
theorem fifo_order (L : List ℕ) (s : RingState) (hw : s.writeIndex < 512)
    (hempty : s.readIndex = s.writeIndex) (hlen : L.length ≤ 511) :
    (popN L.length (pushBlock L s)).2 = L := by
  have hr : s.readIndex < 512 := by rw [hempty]; exact hw
  have hav0 : ringBufferAvailable s.writeIndex s.readIndex = 0 :=
    (avail_zero_iff _ _ hw hr).mpr hempty
  have hcont0 : contents s = [] :=
    List.length_eq_zero.mp (by rw [contents_length, hav0])
  have hfree : L.length ≤ ringBufferFree s.writeIndex s.readIndex := by
    have hsum := avail_add_free s.writeIndex s.readIndex
    simp only [RING_BUFFER_SIZE] at hsum
    omega
  obtain ⟨p1, p2, p3, p4, p5, p6, p7⟩ := pushBlock_spec L s hw hr hfree
  have hclen : L.length ≤ (contents (pushBlock L s)).length := by
    rw [p7, hcont0]
    simp
  obtain ⟨q1, q2, q3, q4⟩ := popN_spec L.length (pushBlock L s) p1
    (by rw [p2]; exact hr) hclen
  rw [q1, p7, hcont0]
  simp

/-- C8: a consumer invocation with `available() = 0` increments the
underrun counter by exactly 1, leaves the read index unchanged, and
issues no bus transfer (the bus-update counter is unchanged). -/
theorem underrun_accounting (dmaBusy : Bool) (s : RingState)
    (hw : s.writeIndex < 512) (hr : s.readIndex < 512)
    (h0 : ringBufferAvailable s.writeIndex s.readIndex = 0) :
    (timerCallback dmaBusy s).1.bufferUnderruns = s.bufferUnderruns + 1 ∧
    (timerCallback dmaBusy s).1.readIndex = s.readIndex ∧
    (timerCallback dmaBusy s).1.dacUpdates = s.dacUpdates ∧
    (timerCallback dmaBusy s).2 = none := by
  have heq : s.readIndex = s.writeIndex := (avail_zero_iff _ _ hw hr).mp h0
  simp [timerCallback, heq]

end Test440

namespace Test440

set_option maxRecDepth 10000 in
/-- C7: end-to-end watermark scenario: with capacity 512, watermark 256
and block size 64, four pre-fill blocks reach 256 available; the
watermark check at 256 does not refill; one consumer pop leaves 255,
which is below the watermark, and the next producer iteration pushes
one block of 64 frames. -/
theorem watermark_scenario :
    ringBufferAvailable scenarioPrefilled.writeIndex
      scenarioPrefilled.readIndex = 256 ∧
    ¬ (ringBufferAvailable scenarioPrefilled.writeIndex
        scenarioPrefilled.readIndex < BUFFER_LOW_WATERMARK) ∧
    (mainIter scenarioBlock scenarioPrefilled).writeIndex
      = scenarioPrefilled.writeIndex ∧
    (mainIter scenarioBlock scenarioPrefilled).samplesGenerated
      = scenarioPrefilled.samplesGenerated ∧
    ringBufferAvailable scenarioAfterPop.writeIndex
      scenarioAfterPop.readIndex = 255 ∧
    ringBufferAvailable scenarioAfterPop.writeIndex
      scenarioAfterPop.readIndex < BUFFER_LOW_WATERMARK ∧
    ringBufferAvailable (mainIter scenarioBlock scenarioAfterPop).writeIndex
      (mainIter scenarioBlock scenarioAfterPop).readIndex = 319 ∧
    (mainIter scenarioBlock scenarioAfterPop).bufferOverruns = 0 ∧
    (mainIter scenarioBlock scenarioAfterPop).samplesGenerated
      = scenarioAfterPop.samplesGenerated + BUFFER_SIZE := by
  decide

/-- C5 witness: a concrete disciplined two-round run. -/
theorem no_overrun_under_discipline_w :
    (runRounds 1 [([true], [7]), ([false], [9])] initState).bufferOverruns = 0 :=
  no_overrun_under_discipline 1 [([true], [7]), ([false], [9])]
    (by decide) (by decide) initState (by decide) (by decide) (by decide)

/-- C6 witness: three pushed codes pop back in order. -/
theorem fifo_order_w : (popN 3 (pushBlock [10, 20, 30] initState)).2 = [10, 20, 30] := by
  have h := fifo_order [10, 20, 30] initState (by decide) (by decide) (by decide)
  simpa using h

/-- C8 witness: the empty initial buffer. -/
theorem underrun_accounting_w :
    (timerCallback true initState).1.bufferUnderruns = initState.bufferUnderruns + 1 ∧
    (timerCallback true initState).1.readIndex = initState.readIndex ∧
    (timerCallback true initState).1.dacUpdates = initState.dacUpdates ∧
    (timerCallback true initState).2 = none :=
  underrun_accounting true initState (by decide) (by decide) (by decide)

end Test440

namespace MCP4725

/-- Every frame `writeDAC` hands to the bus encodes a 12-bit value. -/
theorem transmitted_le (i2c : ℤ) (value powerDown : ℕ) (e : Bool) (s : State) :
    transmittedCode (writeDAC i2c value powerDown e s).2.2 ≤ 4095 := by
  have h1 : (value &&& 0x0FFF) >>> 4 &&& 0xFF ≤ 0xFF := Nat.and_le_right
  have h2 : (value &&& 0x0FFF) <<< 4 &&& 0xF0 ≤ 0xF0 := Nat.and_le_right
  have hlt : ((value &&& 0x0FFF) >>> 4 &&& 0xFF) <<< 4 |||
      ((value &&& 0x0FFF) <<< 4 &&& 0xF0) >>> 4 < 2 ^ 12 := by
    apply Nat.or_lt_two_pow
    · rw [Nat.shiftLeft_eq]
      omega
    · rw [Nat.shiftRight_eq_div_pow]
      omega
  unfold writeDAC
  split_ifs <;> (simp only [transmittedCode]; omega)

/-- C9: for every input value greater than 4095, `setRaw` clamps the
value to 4095 before writing, so `setRaw v` for `v > 4095` behaves
exactly like `setRaw 4095`; the 12-bit value encoded in any frame the
driver transmits is always at most 4095. -/
theorem setRaw_clamps :
    (∀ (i2c : ℤ) (v : ℕ) (e : Bool) (s : State), 4095 < v →
      setRaw i2c v e s = setRaw i2c 4095 e s) ∧
    (∀ (i2c : ℤ) (v : ℕ) (e : Bool) (s : State) (bytes : List ℕ),
      (setRaw i2c v e s).2.2 = some bytes → transmittedCode bytes ≤ 4095) := by
  constructor
  · intro i2c v e s hv
    unfold setRaw
    rw [if_pos hv, if_neg (by omega : ¬ (4095 < 4095))]
  · intro i2c v e s bytes hb
    unfold setRaw at hb
    by_cases hinit : s.initialized = false
    · rw [if_pos hinit] at hb
      simp at hb
    · rw [if_neg hinit] at hb
      simp only [Option.some.injEq] at hb
      rw [← hb]
      exact transmitted_le i2c (if 4095 < v then 4095 else v) s.currentPowerMode e s

end MCP4725

namespace MCP4725

/-- C9 witness: the clamp and the transmitted bound at a concrete call. -/
theorem setRaw_clamps_w :
    setRaw 3 5000 false ⟨true, 0, 0⟩ = setRaw 3 4095 false ⟨true, 0, 0⟩ ∧
    transmittedCode [0x40, 0xFF, 0xF0] ≤ 4095 :=
  ⟨setRaw_clamps.1 3 5000 false ⟨true, 0, 0⟩ (by decide),
   setRaw_clamps.2 3 5000 false ⟨true, 0, 0⟩ [0x40, 0xFF, 0xF0] (by decide)⟩

/-- C10: every MCP4725 setter invoked while `initialized_` is false
returns `false`, attempts no bus write, and leaves the whole cached
state — in particular the cached current value and power-down mode —
unchanged. -/
theorem setters_require_initialization (i2c : ℤ) (v mvolts : ℕ) (volts : ℚ)
    (cv : ℤ) (mode : ℕ) (e : Bool) (s : State) (h : s.initialized = false) :
    setRaw i2c v e s = (s, false, none) ∧
    setMillivolts i2c mvolts e s = (s, false, none) ∧
    setVolts i2c volts e s = (s, false, none) ∧
    setCVMillivolts i2c cv e s = (s, false, none) ∧
    setPowerDownMode i2c mode s = (s, false, none) := by
  unfold setRaw setMillivolts setVolts setCVMillivolts setPowerDownMode
  simp [h]

/-- C10 witness: all five setters on a concrete uninitialized state. -/
theorem setters_require_initialization_w :
    setRaw 3 1000 true ⟨false, 7, 2⟩ = (⟨false, 7, 2⟩, false, none) ∧
    setMillivolts 3 2500 true ⟨false, 7, 2⟩ = (⟨false, 7, 2⟩, false, none) ∧
    setVolts 3 2 true ⟨false, 7, 2⟩ = (⟨false, 7, 2⟩, false, none) ∧
    setCVMillivolts 3 (-100) true ⟨false, 7, 2⟩ = (⟨false, 7, 2⟩, false, none) ∧
    setPowerDownMode 3 1 ⟨false, 7, 2⟩ = (⟨false, 7, 2⟩, false, none) :=
  setters_require_initialization 3 1000 2500 2 (-100) 1 true ⟨false, 7, 2⟩ rfl

end MCP4725
